import Mathlib

/-!
Verification of the goleak core: the stack-dump parser
(`internal/stack/stacks.go`) and the option/filter/retry engine
(the `goleak` package's options file).

Strings are modelled as Lean `String`s, with the byte-oriented Go
`strings` helpers translated to operations on the underlying character
lists.  For the operations used here (splitting on an ASCII space,
trimming one-character affixes, cutting at the last occurrence of an
ASCII character) byte indices and character indices cut the string at
the same place, so the translation is extensionally faithful.
Go's `int` and `time.Duration` are 64-bit; arithmetic that can wrap is
modelled on `Int` with an explicit reduction modulo `2 ^ 64`.
-/

instance {ε α : Type} [DecidableEq ε] [DecidableEq α] : DecidableEq (Except ε α) :=
  fun x y =>
    match x, y with
    | .ok a, .ok b => if h : a = b then isTrue (by rw [h]) else isFalse (by simp [h])
    | .error a, .error b => if h : a = b then isTrue (by rw [h]) else isFalse (by simp [h])
    | .ok _, .error _ => isFalse (by simp)
    | .error _, .ok _ => isFalse (by simp)

namespace GoStr

/-- Whitespace as recognised by `unicode.IsSpace` (used by `strings.TrimSpace`). -/
def isSpace (c : Char) : Bool :=
  c.val = 9 || c.val = 10 || c.val = 11 || c.val = 12 || c.val = 13 || c.val = 32 ||
  c.val = 0x85 || c.val = 0xA0 || c.val = 0x1680 ||
  (0x2000 ≤ c.val && c.val ≤ 0x200A) ||
  c.val = 0x2028 || c.val = 0x2029 || c.val = 0x202F || c.val = 0x205F || c.val = 0x3000

/-- `strings.TrimSpace`: drop leading and trailing whitespace. -/
def trimSpace (s : List Char) : List Char :=
  ((s.dropWhile isSpace).reverse.dropWhile isSpace).reverse

/-- `strings.TrimPrefix(s, pre)`: drop `pre` if `s` starts with it. -/
def trimPre (s pre : List Char) : List Char :=
  if pre.isPrefixOf s then s.drop pre.length else s

/-- `strings.TrimSuffix(s, suf)`: drop `suf` if `s` ends with it. -/
def trimSuf (s suf : List Char) : List Char :=
  if suf.isSuffixOf s then s.take (s.length - suf.length) else s

/-- `strings.HasPrefix(s, pre)`. -/
def hasPre (s pre : List Char) : Bool :=
  pre.isPrefixOf s

/-- `strings.Contains(s, sub)`. -/
def containsSub (s sub : List Char) : Bool :=
  if sub.isPrefixOf s then true
  else
    match s with
    | [] => false
    | _ :: rest => containsSub rest sub

/-- Split a list at the first occurrence of `sep`, if any. -/
def splitFirst (sep : Char) : List Char → Option (List Char × List Char)
  | [] => none
  | c :: cs =>
    if c = sep then some ([], cs)
    else
      match splitFirst sep cs with
      | some (a, b) => some (c :: a, b)
      | none => none

/-- `strings.SplitN(s, sep, n)` for a one-character separator and `n > 0`:
at most `n` pieces, splitting around the first `n - 1` occurrences. -/
def splitN (sep : Char) : Nat → List Char → List (List Char)
  | 0, _ => []
  | 1, s => [s]
  | n + 2, s =>
    match splitFirst sep s with
    | none => [s]
    | some (a, b) => a :: splitN sep (n + 1) b

/-- Index of the last occurrence of `c` in `s` (`strings.LastIndex` for a
one-character needle; `none` plays the role of Go's `-1`). -/
def lastIdx (c : Char) : List Char → Option Nat
  | [] => none
  | a :: rest =>
    match lastIdx c rest with
    | some i => some (i + 1)
    | none => if a = c then some 0 else none

/-- Decimal digit. -/
def isDigit (c : Char) : Bool :=
  48 ≤ c.val && c.val ≤ 57

/-- Value of a decimal digit string. -/
def digitsVal (s : List Char) : Nat :=
  s.foldl (fun acc c => 10 * acc + (c.toNat - 48)) 0

/-- `strconv.Atoi` (= `strconv.ParseInt(s, 10, 0)` with 64-bit `int`):
an optional sign followed by at least one decimal digit, rejected when
the value does not fit a signed 64-bit integer.  `none` plays the role
of a non-nil error. -/
def goAtoi (s : List Char) : Option Int :=
  match s with
  | [] => none
  | c :: r =>
    let ds : List Char := if c = '+' ∨ c = '-' then r else c :: r
    if ds.isEmpty then none
    else if ds.all isDigit then
      let v : Int := if c = '-' then -(digitsVal ds : Int) else (digitsVal ds : Int)
      if -(2 ^ 63) ≤ v ∧ v ≤ 2 ^ 63 - 1 then some v else none
    else none

/-- Specification-side meaning of "the token is a decimal integer with
value `n`": an optional sign followed by a non-empty run of decimal
digits, denoting `n`.  Used to state header-parsing claims without
reference to `goAtoi`. -/
def denotesDecimal (s : List Char) (n : Int) : Prop :=
  (s ≠ [] ∧ s.all isDigit = true ∧ n = (digitsVal s : Int)) ∨
  (∃ t, t ≠ [] ∧ t.all isDigit = true ∧
    ((s = '+' :: t ∧ n = (digitsVal t : Int)) ∨ (s = '-' :: t ∧ n = -(digitsVal t : Int))))

end GoStr

namespace stack

/-- `Stack` from `internal/stack/stacks.go`: one goroutine's parsed record. -/
structure Stack where
  id : Int
  state : String
  firstFunction : String
  fullStack : String
deriving DecidableEq, Repr

/-- `_defaultBufferSize` from `internal/stack/stacks.go`. -/
def _defaultBufferSize : Nat := 64 * 1024

/-- `parseFirstFunc` from `internal/stack/stacks.go`: trim the line and
take everything before the last `(`, requiring that `(` not be the first
character; otherwise fail with a "no function found" error.  (Go quotes
the line with `%q`; the quoting is modelled as plain surrounding
double quotes.) -/
def parseFirstFunc (line : String) : Except String String :=
  let t := GoStr.trimSpace line.data
  match GoStr.lastIdx '(' t with
  | some idx =>
    if 0 < idx then .ok ⟨t.take idx⟩
    else .error ("no function found: \"" ++ (⟨t⟩ : String) ++ "\"")
  | none => .error ("no function found: \"" ++ (⟨t⟩ : String) ++ "\"")

/-- `parseGoStackHeader` from `internal/stack/stacks.go`: strip a trailing
`:` then a trailing newline, split on the first two spaces into exactly
three tokens, read the goroutine ID with `strconv.Atoi`, and strip the
surrounding brackets from the state token. -/
def parseGoStackHeader (line : String) : Except String (Int × String) :=
  let l := GoStr.trimSuf (GoStr.trimSuf line.data [':']) ['\n']
  match GoStr.splitN ' ' 3 l with
  | [_p0, p1, p2] =>
    match GoStr.goAtoi p1 with
    | none =>
      .error ("bad goroutine ID \"" ++ (⟨p1⟩ : String) ++ "\" in line \"" ++ (⟨l⟩ : String) ++ "\"")
    | some id => .ok (id, ⟨GoStr.trimSuf (GoStr.trimPre p2 ['[']) [']']⟩)
  | _ => .error ("unexpected format: \"" ++ (⟨l⟩ : String) ++ "\"")

/-- The tokenisation step of `parseGoStackHeader`: the colon- and
newline-stripped line split on its first two spaces. -/
def headerParts (line : String) : List (List Char) :=
  GoStr.splitN ' ' 3 (GoStr.trimSuf (GoStr.trimSuf line.data [':']) ['\n'])

/-- The `strings.HasPrefix(line, "goroutine ")` test used by the parser. -/
def isGoroutineHeader (line : String) : Bool :=
  GoStr.hasPre line.data "goroutine ".data

/-- Body loop of `parseStack` from `internal/stack/stacks.go`.  The line
scanner (its source file is not under src/) is modelled from the spec:
the input is the list of remaining lines, and the push-back (`Unscan`)
of a boundary header line is modelled by returning that line at the head
of the remaining-lines result. -/
def parseStackBody (id : Int) (state : String) (firstFunction fullStack : String) :
    List String → Except String Stack × List String
  | [] => (.ok ⟨id, state, firstFunction, fullStack⟩, [])
  | line :: rest =>
    if isGoroutineHeader line then
      (.ok ⟨id, state, firstFunction, fullStack⟩, line :: rest)
    else
      let full := fullStack ++ line ++ "\n"
      if firstFunction = "" then
        match parseFirstFunc line with
        | .error e => (.error ("extract function: " ++ e), rest)
        | .ok fn => parseStackBody id state fn full rest
      else
        parseStackBody id state firstFunction full rest

/-- `parseStack` from `internal/stack/stacks.go`: parse the header line,
then accumulate body lines until the next header or end of input. -/
def parseStack (line : String) (rest : List String) : Except String Stack × List String :=
  match parseGoStackHeader line with
  | .error e => (.error ("parse header: " ++ e), rest)
  | .ok (id, state) => parseStackBody id state "" "" rest

/-- Loop of `(*stackParser).Parse` from `internal/stack/stacks.go`,
carrying the parser's accumulated records and per-record errors.  The
scanner's own `Err()` is nil for an in-memory reader and is dropped by
`errors.Join`, so it does not appear.  The loop consumes at least one
line per iteration, so it is totalised with a fuel argument that `Parse`
instantiates with the number of lines; `parseLoopF_fuel_congr` below
shows any sufficient fuel gives the same result. -/
def parseLoopF : Nat → List String → List Stack → List String → List Stack × List String
  | 0, _, stks, errs => (stks, errs)
  | _ + 1, [], stks, errs => (stks, errs)
  | fuel + 1, line :: rest, stks, errs =>
    if isGoroutineHeader line then
      match parseStack line rest with
      | (.ok s, rem) => parseLoopF fuel rem (stks ++ [s]) errs
      | (.error e, rem) => parseLoopF fuel rem stks (errs ++ [e])
    else
      parseLoopF fuel rest stks errs

/-- `(*stackParser).Parse`: the records parsed from the given dump lines,
together with the list of per-record errors. -/
def Parse (lines : List String) : List Stack × List String :=
  parseLoopF lines.length lines [] []

/-- `errors.Join` over the collected per-record errors: `none` when there
are no errors, otherwise one aggregate error whose message joins the
individual messages with newlines. -/
def joinErrors (errs : List String) : Option String :=
  if errs = [] then none else some (String.intercalate "\n" errs)

/-- `Parse` as its callers see it: records plus the joined aggregate error. -/
def ParseJoined (lines : List String) : List Stack × Option String :=
  ((Parse lines).1, joinErrors (Parse lines).2)

/-- Loop of `getStackBuffer` from `internal/stack/stacks.go`.  The external
capability `runtime.Stack` is abstracted as `write`, the bytes it places in
a buffer of the requested size (Go returns the count `n`; here the slice
`buf[:n]` itself).  The unbounded `for` loop is totalised with fuel;
the claim's precondition makes the result fuel-independent. -/
def getStackBufferLoop (write : Nat → List Char) : Nat → Nat → Option (List Char × Nat)
  | 0, _ => none
  | fuel + 1, i =>
    let buf := write i
    if buf.length < i then some (buf, i) else getStackBufferLoop write fuel (i * 2)

/-- `getStackBuffer` from `internal/stack/stacks.go`: start from
`_defaultBufferSize` and double until the write fits with room to spare. -/
def getStackBuffer (write : Nat → List Char) (fuel : Nat) : Option (List Char × Nat) :=
  getStackBufferLoop write fuel _defaultBufferSize

end stack

namespace goleak

open stack (Stack)

/-- `_defaultRetryAttempts` from the options file. -/
def _defaultRetryAttempts : Int := 20

/-- `_defaultSleepInterval` from the options file: 100 microseconds, as a
`time.Duration` in nanoseconds. -/
def _defaultSleepInterval : Int := 100 * 1000

/-- `opts` from the options file.  `maxRetries` is a Go `int` and
`maxSleep` a `time.Duration` (both 64-bit); `cleanup` is the optional
cleanup callback (nil modelled as `none`). -/
structure opts where
  filters : List (Stack → Bool)
  maxRetries : Int
  maxSleep : Int
  cleanup : Option (Int → Unit)

/-- `(*opts).apply`: an already-built `opts` used as an `Option` copies
all four of its fields onto the target. -/
def opts.apply (o target : opts) : opts :=
  { target with
    filters := o.filters
    maxRetries := o.maxRetries
    maxSleep := o.maxSleep
    cleanup := o.cleanup }

/-- `(*opts).validate`: `some` an error message exactly when the options
are rejected. -/
def opts.validate (o : opts) : Option String :=
  if o.maxRetries < 0 then some "maxRetryAttempts should be greater than 0"
  else if o.maxSleep ≤ 0 then some "maxSleepInterval should be greater than 0s"
  else none

/-- The `Option` interface: either a whole `opts` value (whose `apply`
copies every field) or an `optionFunc` closure. -/
inductive GOption where
  | ofOpts (o : opts)
  | optionFunc (f : opts → opts)

/-- `Option.apply` dispatch. -/
def GOption.apply : GOption → opts → opts
  | .ofOpts o, target => opts.apply o target
  | .optionFunc f, target => f target

/-- `addFilter`: an option appending one predicate to the filter list. -/
def addFilter (f : Stack → Bool) : GOption :=
  .optionFunc fun o => { o with filters := o.filters ++ [f] }

/-- `IgnoreTopFunction`. -/
def IgnoreTopFunction (f : String) : GOption :=
  addFilter fun s => s.firstFunction = f

/-- `Cleanup`. -/
def Cleanup (cleanupFunc : Int → Unit) : GOption :=
  .optionFunc fun o => { o with cleanup := some cleanupFunc }

/-- `MaxSleepInterval`. -/
def MaxSleepInterval (d : Int) : GOption :=
  .optionFunc fun o => { o with maxSleep := d }

/-- `MaxRetryAttempts`. -/
def MaxRetryAttempts (num : Int) : GOption :=
  .optionFunc fun o => { o with maxRetries := num }

/-- `IgnoreCurrent`, with the snapshot-capability call `stack.All()`
(whose value is determined by the live runtime, not by code under src/)
abstracted as the list of stacks it returns at the moment the option is
created.  The goroutine-id set is a Go `map[int]bool` whose lookup
defaults to false; it is modelled as membership in the captured id list. -/
def IgnoreCurrent (allAtCreation : List Stack) : GOption :=
  let excludeIDSet : List Int := allAtCreation.map Stack.id
  addFilter fun s => excludeIDSet.contains s.id

/-- `isTestStack` from the options file. -/
def isTestStack (s : Stack) : Bool :=
  if s.firstFunction = "testing.RunTests" ∨ s.firstFunction = "testing.(*T).Run" ∨
      s.firstFunction = "testing.(*T).Parallel" ∨ s.firstFunction = "testing.runFuzzing" ∨
      s.firstFunction = "testing.runFuzzTests" then
    GoStr.hasPre s.state.data "chan receive".data
  else false

/-- `isSyscallStack` from the options file. -/
def isSyscallStack (s : Stack) : Bool :=
  s.firstFunction = "runtime.goexit" && GoStr.hasPre s.state.data "syscall".data

/-- `isStdLibStack` from the options file. -/
def isStdLibStack (s : Stack) : Bool :=
  if s.firstFunction = "os/signal.signal_recv" ∨ s.firstFunction = "os/signal.loop" then true
  else GoStr.containsSub s.fullStack.data "runtime.ensureSigM".data

/-- Modelled from the spec: `isTraceStack` lives in a build-tagged source
file that is not under src/; the spec says only that it excludes records
identified as execution-trace plumbing.  It is modelled as matching the
runtime's trace-reader marker in the record; no claim depends on its
behaviour, only on its position among the default filters. -/
def isTraceStack (s : Stack) : Bool :=
  GoStr.containsSub s.fullStack.data "runtime.ReadTrace".data

/-- `buildOpts`: defaults, the four default filters, then each option
applied in order. -/
def buildOpts (options : List GOption) : opts :=
  let o0 : opts :=
    { filters := []
      maxRetries := _defaultRetryAttempts
      maxSleep := _defaultSleepInterval
      cleanup := none }
  let o1 : opts :=
    { o0 with
      filters := o0.filters ++ [isTestStack, isSyscallStack, isStdLibStack, isTraceStack] }
  options.foldl (fun acc op => op.apply acc) o1

/-- The loop inside `(*opts).filter`: try each filter in order,
short-circuiting on the first match. -/
def filterAny : List (Stack → Bool) → Stack → Bool
  | [], _ => false
  | f :: fs, s => if f s then true else filterAny fs s

/-- `(*opts).filter`. -/
def opts.filter (o : opts) (s : Stack) : Bool :=
  filterAny o.filters s

/-- Signed 64-bit wrap-around, as for a Go `int`/`time.Duration`. -/
def wrap64 (x : Int) : Int :=
  let r := x % (2 ^ 64 : Int)
  if r < 2 ^ 63 then r else r - 2 ^ 64

/-- `time.Duration(int(time.Microsecond) << uint(i))` on a 64-bit
platform: `1000 * 2 ^ i` wrapped to a signed 64-bit value (Go's shift
semantics: repeated doubling, so counts of 64 or more give 0). -/
def durShl (i : Nat) : Int :=
  wrap64 (1000 * 2 ^ i)

/-- The duration passed to `time.Sleep` in `(*opts).retry`: the shifted
base unit, capped at `maxSleep` when larger. -/
def retryDelay (o : opts) (i : Nat) : Int :=
  let d := durShl i
  if d > o.maxSleep then o.maxSleep else d

/-- `(*opts).retry` with attempt counter `i` (the claim's counter is
non-negative, so it is taken as a `Nat`): `false` with no sleep once the
bound is reached, otherwise `true` together with the duration handed to
the blocking `time.Sleep`. -/
def opts.retry (o : opts) (i : Nat) : Bool × Option Int :=
  if o.maxRetries ≤ (i : Int) then (false, none)
  else (true, some (retryDelay o i))

/-- Modelled from the spec: the retry scheduler's mutable state is the
attempt counter, held by the orchestrator (whose source file is not
under src/) and incremented after each continuing step; the stop test
and the slept duration are `(*opts).retry` translated above. -/
structure RetryState where
  attempt : Nat
deriving DecidableEq, Repr

/-- One scheduler step: consult `(*opts).retry` at the current attempt;
on "continue" the counter advances, on "stop" the state is unchanged. -/
def retryStep (o : opts) (st : RetryState) : (Bool × Option Int) × RetryState :=
  match o.retry st.attempt with
  | (false, d) => ((false, d), st)
  | (true, d) => ((true, d), ⟨st.attempt + 1⟩)

/-- Insertion step for the id-sorted leak report. -/
def insertByID (s : Stack) : List Stack → List Stack
  | [] => [s]
  | t :: ts => if s.id ≤ t.id then s :: t :: ts else t :: insertByID s ts

/-- Ascending-id sort of the leak report (spec §4.4). -/
def sortByID : List Stack → List Stack
  | [] => []
  | s :: ss => insertByID s (sortByID ss)

/-- Modelled from the spec: the orchestrator's detection loop (its source
file is not under src/).  Given the validated configuration, the current
attempt counter and the successive snapshots the capability would
return, it filters each snapshot through the chain, succeeds when
nothing remains, otherwise consults the retry scheduler and either loops
or reports the surviving records sorted by ascending id. -/
def runDetection (o : opts) : Nat → List (List Stack) → List Stack
  | _, [] => []
  | i, snap :: rest =>
    let leaked := snap.filter fun s => !(o.filter s)
    if leaked.isEmpty then []
    else if (o.retry i).1 then runDetection o (i + 1) rest
    else sortByID leaked

/-- Modelled from the spec: the orchestrator entry point (`Find`, not
under src/) builds the configuration from the options, validates it
synchronously, and only on success starts the detection run over the
snapshots. -/
def find (options : List GOption) (snapshots : List (List Stack)) : Except String (List Stack) :=
  let o := buildOpts options
  match o.validate with
  | some e => .error e
  | none => .ok (runDetection o 0 snapshots)

end goleak

/-! Helper lemmas. -/

namespace stack

theorem parseStackBody_rem_length_le (id : Int) (state : String) :
    ∀ (ls : List String) (f fs : String),
      (parseStackBody id state f fs ls).2.length ≤ ls.length := by
  intro ls
  induction ls with
  | nil => intro f fs; simp [parseStackBody]
  | cons line rest ih =>
    intro f fs
    simp only [parseStackBody]
    by_cases hh : isGoroutineHeader line
    · simp [hh]
    · simp only [hh, if_false, Bool.false_eq_true]
      by_cases hf : f = ""
      · simp only [hf, if_true]
        cases hpf : parseFirstFunc line with
        | error e => simp
        | ok fn =>
          simp only []
          exact le_trans (ih _ _) (by simp)
      · simp only [hf, if_false]
        exact le_trans (ih _ _) (by simp)

theorem parseStack_rem_length_le (line : String) (rest : List String) :
    (parseStack line rest).2.length ≤ rest.length := by
  unfold parseStack
  cases parseGoStackHeader line with
  | error e => simp
  | ok v => exact parseStackBody_rem_length_le _ _ _ _ _

theorem parseLoopF_fuel_congr :
    ∀ (f1 f2 : Nat) (lines : List String) (stks : List Stack) (errs : List String),
      lines.length ≤ f1 → lines.length ≤ f2 →
      parseLoopF f1 lines stks errs = parseLoopF f2 lines stks errs := by
  intro f1
  induction f1 with
  | zero =>
    intro f2 lines stks errs h1 _
    have : lines = [] := List.eq_nil_of_length_eq_zero (Nat.le_zero.mp h1)
    subst this
    cases f2 <;> simp [parseLoopF]
  | succ f ih =>
    intro f2 lines stks errs h1 h2
    cases lines with
    | nil => cases f2 <;> simp [parseLoopF]
    | cons line rest =>
      cases f2 with
      | zero => simp at h2
      | succ g =>
        simp only [parseLoopF]
        by_cases hh : isGoroutineHeader line
        · simp only [hh, if_true]
          have hle := parseStack_rem_length_le line rest
          simp only [List.length_cons] at h1 h2
          cases hps : parseStack line rest with
          | mk res rem =>
            cases res with
            | ok s =>
              exact ih g rem (stks ++ [s]) errs (by simp_all; omega) (by simp_all; omega)
            | error e =>
              exact ih g rem stks (errs ++ [e]) (by simp_all; omega) (by simp_all; omega)
        · simp only [hh, if_false]
          simp only [List.length_cons] at h1 h2
          exact ih g rest stks errs (by omega) (by omega)

end stack

/-! Claim theorems. -/

namespace stack

/-- Claim C1 (divergence of the code from the claim and from the
repository's own tests): on a record whose first accumulated line is a
"created by F" line — with or without the " in goroutine N" suffix —
`parseFirstFunc` finds no `(` and fails the record with a
"no function found" error instead of extracting F; a normal call line
does get everything before its last `(`. -/
theorem createdBy_firstFunc_divergence :
    parseFirstFunc "created by example.com/foo/bar.baz in goroutine 123" =
      .error "no function found: \"created by example.com/foo/bar.baz in goroutine 123\"" ∧
    parseFirstFunc "created by example.com/foo/bar.baz" =
      .error "no function found: \"created by example.com/foo/bar.baz\"" ∧
    (parseStack "goroutine 1 [running]:"
        ["created by example.com/foo/bar.baz in goroutine 123"]).1 =
      .error "extract function: no function found: \"created by example.com/foo/bar.baz in goroutine 123\"" ∧
    parseFirstFunc "example.com/foo/bar.baz(0x1, 0x2)" = .ok "example.com/foo/bar.baz" := by
  refine ⟨by decide, by decide, by decide, by decide⟩

end stack

namespace goleak

/-- Claim C2, counterexample to the claim as stated: at attempt `i = 54`
(reachable once `maxRetries > 54`), the shifted duration
`int(time.Microsecond) << 54` overflows a signed 64-bit `time.Duration`
to a negative value, so the step does not wait
`min(1µs << 54, maxSleep) = maxSleep` as claimed — the duration handed
to `time.Sleep` is negative (an immediate return). -/
theorem retry_shift_counterexample :
    opts.retry ⟨[], 60, 100000, none⟩ 54 ≠
      (true, some (min ((1000 : Int) * 2 ^ 54) 100000)) ∧
    opts.retry ⟨[], 60, 100000, none⟩ 54 = (true, some (-432345564227567616)) := by
  refine ⟨by decide, by decide⟩

/-- Claim C2 (amended): a step at attempt counter `i ≥ maxRetries`
returns "stop", waits for nothing and leaves the state unchanged;
otherwise — provided `i ≤ 53`, so that `1µs << i` does not overflow the
signed 64-bit duration — it hands `time.Sleep` exactly
`min(1µs << i, maxSleep)` (so the delays run 1, 2, 4, … microseconds,
capped at `maxSleep`), increments the attempt counter and returns
"continue". -/
theorem retry_step_spec (o : opts) (st : RetryState) :
    (o.maxRetries ≤ (st.attempt : Int) → retryStep o st = ((false, none), st)) ∧
    ((st.attempt : Int) < o.maxRetries → st.attempt ≤ 53 →
      retryStep o st =
        ((true, some (min ((1000 : Int) * 2 ^ st.attempt) o.maxSleep)), ⟨st.attempt + 1⟩)) := by
  constructor
  · intro h
    simp [retryStep, opts.retry, h]
  · intro hlt h53
    have hnn : (0 : Int) ≤ 1000 * 2 ^ st.attempt := by positivity
    have hpow : (2 : Int) ^ st.attempt ≤ 2 ^ 53 := by
      exact pow_le_pow_right₀ (by norm_num) h53
    have hlt64 : (1000 : Int) * 2 ^ st.attempt < 2 ^ 64 := by nlinarith
    have hlt63 : (1000 : Int) * 2 ^ st.attempt < 2 ^ 63 := by nlinarith
    have hwrap : durShl st.attempt = 1000 * 2 ^ st.attempt := by
      simp only [durShl, wrap64]
      rw [Int.emod_eq_of_lt hnn hlt64, if_pos hlt63]
    have hne : ¬ o.maxRetries ≤ (st.attempt : Int) := not_le.mpr hlt
    simp only [retryStep, opts.retry, hne, if_false]
    have hdelay : retryDelay o st.attempt = min ((1000 : Int) * 2 ^ st.attempt) o.maxSleep := by
      simp only [retryDelay, hwrap]
      by_cases hgt : 1000 * 2 ^ st.attempt > o.maxSleep
      · simp [hgt, min_eq_right (le_of_lt hgt)]
      · simp [hgt, min_eq_left (not_lt.mp hgt)]
    rw [hdelay]

/-- Witness for `retry_step_spec`: with the default configuration at
attempt 3, the step continues, sleeps `min(8µs, 100µs) = 8µs`, and the
counter advances to 4. -/
theorem retry_step_spec_witness :
    retryStep ⟨[], 20, 100000, none⟩ ⟨3⟩ =
      ((true, some (min ((1000 : Int) * 2 ^ 3) 100000)), ⟨4⟩) :=
  (retry_step_spec ⟨[], 20, 100000, none⟩ ⟨3⟩).2 (by norm_num) (by norm_num)

/-- Claim C10: a previously built `opts` value passed as an `Option`
copies all four fields from the source onto the configuration being
built, so whatever default filters `buildOpts` installed and whatever
earlier options added, the resulting filter list (and every other
field) equals exactly the source's. -/
theorem buildOpts_opts_replaces_config (o : opts) (earlier : List GOption) :
    (buildOpts (earlier ++ [GOption.ofOpts o])).filters = o.filters ∧
    (buildOpts (earlier ++ [GOption.ofOpts o])).maxRetries = o.maxRetries ∧
    (buildOpts (earlier ++ [GOption.ofOpts o])).maxSleep = o.maxSleep ∧
    (buildOpts (earlier ++ [GOption.ofOpts o])).cleanup = o.cleanup := by
  simp [buildOpts, List.foldl_append, GOption.apply, opts.apply]

end goleak

namespace goleak

open stack (Stack)

theorem filterAny_eq_any (fs : List (Stack → Bool)) (s : Stack) :
    filterAny fs s = fs.any fun f => f s := by
  induction fs with
  | nil => rfl
  | cons f fs ih => by_cases h : f s <;> simp [filterAny, h, ih]

/-- Claim C4: the chain's exclusion verdict is the logical OR of the
configured filters on the record — a record is a candidate leak iff no
filter returns true on it — and the verdict is invariant under any
permutation of the filter list, although evaluation is in order with a
short-circuit on the first match. -/
theorem filter_or_invariant (o : opts) (fs' : List (Stack → Bool)) (s : Stack)
    (hp : o.filters.Perm fs') :
    (o.filter s = true ↔ ∃ f ∈ o.filters, f s = true) ∧
    (o.filter s = false ↔ ∀ f ∈ o.filters, f s = false) ∧
    opts.filter { o with filters := fs' } s = o.filter s := by
  have h1 : o.filter s = o.filters.any fun f => f s := filterAny_eq_any _ _
  have h2 : opts.filter { o with filters := fs' } s = fs'.any fun f => f s :=
    filterAny_eq_any _ _
  have hiff : (fs'.any fun f => f s) = true ↔ (o.filters.any fun f => f s) = true := by
    rw [List.any_eq_true, List.any_eq_true]
    constructor
    · rintro ⟨f, hf, hfs⟩
      exact ⟨f, hp.mem_iff.mpr hf, hfs⟩
    · rintro ⟨f, hf, hfs⟩
      exact ⟨f, hp.mem_iff.mp hf, hfs⟩
  refine ⟨?_, ?_, ?_⟩
  · rw [h1, List.any_eq_true]
  · rw [h1]
    simp [List.any_eq_false]
  · rw [h1, h2]
    cases hA : (o.filters.any fun f => f s) <;> cases hB : (fs'.any fun f => f s) <;> simp_all

/-- Witness for `filter_or_invariant`: a two-filter chain on a concrete
record, and the same chain with the two filters swapped. -/
theorem filter_or_invariant_witness :
    (opts.filter ⟨[fun t => t.id == 1, fun t => t.state == "syscall"], 20, 100000, none⟩
        ⟨1, "running", "main.f", "full"⟩ = true ↔
      ∃ f ∈ [fun (t : Stack) => t.id == 1, fun (t : Stack) => t.state == "syscall"],
        f ⟨1, "running", "main.f", "full"⟩ = true) ∧
    (opts.filter ⟨[fun t => t.id == 1, fun t => t.state == "syscall"], 20, 100000, none⟩
        ⟨1, "running", "main.f", "full"⟩ = false ↔
      ∀ f ∈ [fun (t : Stack) => t.id == 1, fun (t : Stack) => t.state == "syscall"],
        f ⟨1, "running", "main.f", "full"⟩ = false) ∧
    opts.filter ⟨[fun t => t.state == "syscall", fun t => t.id == 1], 20, 100000, none⟩
        ⟨1, "running", "main.f", "full"⟩ =
      opts.filter ⟨[fun t => t.id == 1, fun t => t.state == "syscall"], 20, 100000, none⟩
        ⟨1, "running", "main.f", "full"⟩ :=
  filter_or_invariant ⟨[fun t => t.id == 1, fun t => t.state == "syscall"], 20, 100000, none⟩
    [fun t => t.state == "syscall", fun t => t.id == 1] ⟨1, "running", "main.f", "full"⟩
    (List.Perm.swap _ _ _)

/-- Claim C7: `validate` returns an error exactly when the retry bound is
negative or the sleep ceiling is non-positive; `maxRetries = 0` with a
positive `maxSleep` is accepted; and the (spec-modelled) orchestrator
entry point validates synchronously, returning the error before any
snapshot of the detection run is consulted — the outcome is the same for
any snapshot sequence. -/
theorem validate_spec (o : opts) (options : List GOption) (ms : Int)
    (snaps snaps' : List (List Stack)) (e : String)
    (hms : 0 < ms) (he : (buildOpts options).validate = some e) :
    ((∃ msg, o.validate = some msg) ↔ (o.maxRetries < 0 ∨ o.maxSleep ≤ 0)) ∧
    opts.validate { o with maxRetries := 0, maxSleep := ms } = none ∧
    find options snaps = .error e ∧ find options snaps' = .error e := by
  refine ⟨?_, ?_, ?_, ?_⟩
  · unfold opts.validate
    split_ifs with h1 h2 <;> simp_all
  · simp [opts.validate, not_le.mpr hms]
  · simp [find, he]
  · simp [find, he]

/-- Witness for `validate_spec`: a negative retry bound is reported by
`validate` and makes (the spec-modelled) `find` fail identically on two
different snapshot sequences, before any detection work. -/
theorem validate_spec_witness :
    ((∃ msg, opts.validate ⟨[], -1, 1, none⟩ = some msg) ↔
      ((-1 : Int) < 0 ∨ (1 : Int) ≤ 0)) ∧
    opts.validate { (⟨[], -1, 1, none⟩ : opts) with maxRetries := 0, maxSleep := 7 } = none ∧
    find [MaxRetryAttempts (-1)] [] = .error "maxRetryAttempts should be greater than 0" ∧
    find [MaxRetryAttempts (-1)] [[⟨9, "running", "main.g", "t"⟩]] =
      .error "maxRetryAttempts should be greater than 0" :=
  validate_spec ⟨[], -1, 1, none⟩ [MaxRetryAttempts (-1)] 7 [] [[⟨9, "running", "main.g", "t"⟩]]
    "maxRetryAttempts should be greater than 0" (by norm_num) rfl

/-- Claim C9: the baseline option closes over the ids of the stacks the
snapshot capability reports at the moment the option is created; the
single filter it appends excludes a record exactly when the record's id
is in that captured id set, and its verdict depends on nothing but the
id — two records with the same id get the same verdict regardless of
state, functions or full text. -/
theorem ignoreCurrent_spec (cur : List Stack) (o : opts) (s s' : Stack)
    (hid : s'.id = s.id) :
    ∃ f, ((IgnoreCurrent cur).apply o).filters = o.filters ++ [f] ∧
      (f s = true ↔ s.id ∈ cur.map Stack.id) ∧ f s' = f s := by
  refine ⟨fun t => (cur.map Stack.id).contains t.id, rfl, ?_, ?_⟩
  · exact List.elem_iff
  · show (cur.map Stack.id).contains s'.id = (cur.map Stack.id).contains s.id
    rw [hid]

/-- Witness for `ignoreCurrent_spec`: a baseline of one goroutine with
id 1; the produced filter matches a record with id 1 whatever its state,
and agrees across two different records sharing that id. -/
theorem ignoreCurrent_spec_witness :
    ∃ f, ((IgnoreCurrent [⟨1, "running", "main.w", "t"⟩]).apply ⟨[], 20, 100000, none⟩).filters =
        [] ++ [f] ∧
      (f ⟨1, "chan receive", "main.g", "u"⟩ = true ↔
        (1 : Int) ∈ [(⟨1, "running", "main.w", "t"⟩ : Stack)].map Stack.id) ∧
      f ⟨1, "other", "main.h", "v"⟩ = f ⟨1, "chan receive", "main.g", "u"⟩ :=
  ignoreCurrent_spec [⟨1, "running", "main.w", "t"⟩] ⟨[], 20, 100000, none⟩
    ⟨1, "chan receive", "main.g", "u"⟩ ⟨1, "other", "main.h", "v"⟩ rfl

end goleak

namespace stack

theorem getStackBufferLoop_spec (write : Nat → List Char) :
    ∀ (k i fuel : Nat),
      (write (i * 2 ^ k)).length < i * 2 ^ k →
      (∀ j, j < k → i * 2 ^ j ≤ (write (i * 2 ^ j)).length) →
      k < fuel →
      getStackBufferLoop write fuel i = some (write (i * 2 ^ k), i * 2 ^ k) := by
  intro k
  induction k with
  | zero =>
    intro i fuel h0 _ hf
    cases fuel with
    | zero => omega
    | succ f =>
      simp only [pow_zero, Nat.mul_one] at h0 ⊢
      simp [getStackBufferLoop, h0]
  | succ k ih =>
    intro i fuel hk hmin hf
    cases fuel with
    | zero => omega
    | succ f =>
      have h0 : i * 2 ^ 0 ≤ (write (i * 2 ^ 0)).length := hmin 0 (Nat.succ_pos k)
      simp only [pow_zero, Nat.mul_one] at h0
      have hnot : ¬ (write i).length < i := not_lt.mpr h0
      simp only [getStackBufferLoop]
      rw [if_neg hnot]
      have harr : ∀ j, (i * 2) * 2 ^ j = i * 2 ^ (j + 1) := by
        intro j
        ring
      have hk' : (write ((i * 2) * 2 ^ k)).length < (i * 2) * 2 ^ k := by
        rw [harr]
        exact hk
      have hmin' : ∀ j, j < k → (i * 2) * 2 ^ j ≤ (write ((i * 2) * 2 ^ j)).length := by
        intro j hj
        rw [harr]
        exact hmin (j + 1) (Nat.succ_lt_succ hj)
      have hrec := ih (i * 2) f hk' hmin' (Nat.lt_of_succ_lt_succ hf)
      rw [harr k] at hrec
      exact hrec

/-- Claim C8: the buffer acquisition starts from a 64 KiB request and
doubles while the capability's report fills the whole buffer; as soon as
some doubling `k` is the first whose report is strictly below the
requested size, the loop terminates (any fuel beyond `k` gives the same
answer) and returns exactly the bytes reported at that size, whose
length is strictly below the final buffer capacity — the dump is never
truncated. -/
theorem getStackBuffer_spec (write : Nat → List Char) (k fuel : Nat)
    (hk : (write (_defaultBufferSize * 2 ^ k)).length < _defaultBufferSize * 2 ^ k)
    (hmin : ∀ j, j < k → _defaultBufferSize * 2 ^ j ≤ (write (_defaultBufferSize * 2 ^ j)).length)
    (hf : k < fuel) :
    getStackBuffer write fuel =
      some (write (_defaultBufferSize * 2 ^ k), _defaultBufferSize * 2 ^ k) ∧
    (write (_defaultBufferSize * 2 ^ k)).length < _defaultBufferSize * 2 ^ k ∧
    _defaultBufferSize = 64 * 1024 :=
  ⟨getStackBufferLoop_spec write k _defaultBufferSize fuel hk hmin hf, hk, rfl⟩

/-- Witness for `getStackBuffer_spec`: a capability that has 100000 bytes
to report truncates the first 64 KiB request, so the buffer doubles once
and the full 100000 bytes come back with room to spare. -/
theorem getStackBuffer_spec_witness :
    getStackBuffer (fun i => List.replicate (min 100000 i) 'a') 2 =
      some ((fun i => List.replicate (min 100000 i) 'a') (_defaultBufferSize * 2 ^ 1),
        _defaultBufferSize * 2 ^ 1) ∧
    ((fun i => List.replicate (min 100000 i) 'a') (_defaultBufferSize * 2 ^ 1)).length <
      _defaultBufferSize * 2 ^ 1 ∧
    _defaultBufferSize = 64 * 1024 :=
  getStackBuffer_spec (fun i => List.replicate (min 100000 i) 'a') 1 2
    (by
      show (List.replicate (min 100000 (_defaultBufferSize * 2 ^ 1)) 'a').length <
        _defaultBufferSize * 2 ^ 1
      rw [List.length_replicate]
      simp only [_defaultBufferSize]
      omega)
    (by
      intro j hj
      have hj0 : j = 0 := by omega
      subst hj0
      show _defaultBufferSize * 2 ^ 0 ≤
        (List.replicate (min 100000 (_defaultBufferSize * 2 ^ 0)) 'a').length
      rw [List.length_replicate]
      simp only [_defaultBufferSize]
      omega)
    (by norm_num)

end stack

theorem GoStr.lastIdx_lt_length {c : Char} :
    ∀ {s : List Char} {i : Nat}, GoStr.lastIdx c s = some i → i < s.length := by
  intro s
  induction s with
  | nil =>
    intro i h
    simp [GoStr.lastIdx] at h
  | cons a rest ih =>
    intro i h
    simp only [GoStr.lastIdx] at h
    cases hr : GoStr.lastIdx c rest with
    | some j =>
      rw [hr] at h
      simp only [Option.some.injEq] at h
      subst h
      have := ih hr
      simp only [List.length_cons]
      omega
    | none =>
      rw [hr] at h
      by_cases hac : a = c
      · simp only [hac, if_true, Option.some.injEq] at h
        subst h
        simp
      · simp [hac] at h

namespace stack

theorem parseFirstFunc_ok_ne_empty (line fn : String)
    (h : parseFirstFunc line = .ok fn) : fn ≠ "" := by
  simp only [parseFirstFunc] at h
  split at h
  · rename_i idx heq
    split at h
    · rename_i h0
      have hmk := Except.ok.inj h
      have hlt : idx < (GoStr.trimSpace line.data).length := GoStr.lastIdx_lt_length heq
      intro hc
      rw [hc] at hmk
      have hnil : (GoStr.trimSpace line.data).take idx = [] := congrArg String.data hmk
      have hlen := congrArg List.length hnil
      rw [List.length_take] at hlen
      simp only [List.length_nil] at hlen
      omega
    · simp at h
  · simp at h

theorem parseStackBody_ok_firstFunction (id : Int) (state : String) :
    ∀ (ls : List String) (f fs : String) (s : Stack) (rem : List String),
      f ≠ "" → parseStackBody id state f fs ls = (.ok s, rem) → s.firstFunction = f := by
  intro ls
  induction ls with
  | nil =>
    intro f fs s rem _ h
    simp only [parseStackBody, Prod.mk.injEq] at h
    obtain ⟨h1, -⟩ := h
    have := Except.ok.inj h1
    subst this
    rfl
  | cons line rest ih =>
    intro f fs s rem hf h
    simp only [parseStackBody] at h
    by_cases hh : isGoroutineHeader line
    · simp only [hh, if_true, Prod.mk.injEq] at h
      obtain ⟨h1, -⟩ := h
      have := Except.ok.inj h1
      subst this
      rfl
    · simp only [hh, Bool.false_eq_true, if_false] at h
      rw [if_neg hf] at h
      exact ih _ _ _ _ hf h

/-- Claim C5 (amended): any record that accumulates at least one body
line and parses successfully has its `firstFunction` derived by
`parseFirstFunc` from that first body line, and it is non-empty; when
`parseFirstFunc` fails on that line the whole record is a parse failure.
(The claim as stated is refuted by `parse_headerOnly_counterexample`:
a record with no body lines is returned successfully with an empty
`firstFunction`.) -/
theorem parseStack_firstFunc_spec (h l : String) (ls : List String) (s : Stack)
    (rem : List String) (hl : isGoroutineHeader l = false)
    (hp : parseStack h (l :: ls) = (.ok s, rem)) :
    parseFirstFunc l = .ok s.firstFunction ∧ s.firstFunction ≠ "" := by
  unfold parseStack at hp
  cases hh : parseGoStackHeader h with
  | error e =>
    rw [hh] at hp
    simp at hp
  | ok v =>
    rw [hh] at hp
    obtain ⟨id, st⟩ := v
    simp only [parseStackBody, hl, Bool.false_eq_true, if_false, if_true] at hp
    cases hpf : parseFirstFunc l with
    | error e =>
      rw [hpf] at hp
      simp at hp
    | ok fn =>
      rw [hpf] at hp
      have hfn : fn ≠ "" := parseFirstFunc_ok_ne_empty l fn hpf
      have hs : s.firstFunction = fn := parseStackBody_ok_firstFunction id st ls fn _ s rem hfn hp
      rw [hs]
      exact ⟨rfl, hfn⟩

/-- Witness for `parseStack_firstFunc_spec`: a well-formed two-line
record; its `firstFunction` is extracted from the top call line and is
non-empty. -/
theorem parseStack_firstFunc_spec_witness :
    parseFirstFunc "main.worker(0xc000010)" = .ok "main.worker" ∧
    ("main.worker" : String) ≠ "" :=
  parseStack_firstFunc_spec "goroutine 7 [chan receive]:" "main.worker(0xc000010)"
    ["\tmain.go:10 +0x1a"]
    ⟨7, "chan receive", "main.worker", "main.worker(0xc000010)\n\tmain.go:10 +0x1a\n"⟩
    [] (by decide) (by decide)

/-- Claim C5, counterexample to the claim as stated: a goroutine header
immediately followed by the end of input accumulates no body line, and
`Parse` returns that record successfully — with no error — carrying an
empty `firstFunction`. -/
theorem parse_headerOnly_counterexample :
    Parse ["goroutine 1 [running]:"] = ([⟨1, "running", "", ""⟩], []) ∧
    (Parse ["goroutine 1 [running]:"]).1.map Stack.firstFunction = [""] := by
  refine ⟨by decide, by decide⟩

end stack

namespace GoStr

theorem isEmpty_eq_true_iff {α : Type} (l : List α) : l.isEmpty = true ↔ l = [] := by
  cases l <;> simp

theorem isPrefixOf_append_self (a b : List Char) : a.isPrefixOf (a ++ b) = true := by
  induction a with
  | nil => simp [List.isPrefixOf]
  | cons c cs ih => simp [List.isPrefixOf, ih]

/-- `goAtoi` against the specification-side reading: it succeeds with `n`
exactly when the token denotes the decimal integer `n` and `n` fits in a
signed 64-bit integer. -/
theorem goAtoi_eq_some_iff (s : List Char) (n : Int) :
    goAtoi s = some n ↔
      denotesDecimal s n ∧ -(2 ^ 63) ≤ n ∧ n ≤ 2 ^ 63 - 1 := by
  cases s with
  | nil =>
    constructor
    · intro h
      simp [goAtoi] at h
    · rintro ⟨hd, -⟩
      rcases hd with ⟨hne, -, -⟩ | ⟨t, -, -, (⟨heq, -⟩ | ⟨heq, -⟩)⟩
      · exact absurd rfl hne
      · exact List.noConfusion heq
      · exact List.noConfusion heq
  | cons c r =>
    constructor
    · intro h
      simp only [goAtoi] at h
      by_cases hpm : c = '+' ∨ c = '-'
      · rw [if_pos hpm] at h
        by_cases hre : r.isEmpty
        · rw [if_pos hre] at h
          exact absurd h (by simp)
        · rw [if_neg hre] at h
          have hrne : r ≠ [] := fun hnil => hre (by rw [hnil]; rfl)
          by_cases hall : r.all isDigit
          · rw [if_pos hall] at h
            by_cases hneg : c = '-'
            · rw [if_pos hneg] at h
              by_cases hrange :
                  -(2 ^ 63 : Int) ≤ -(digitsVal r : Int) ∧ -(digitsVal r : Int) ≤ 2 ^ 63 - 1
              · rw [if_pos hrange] at h
                have hn : -(digitsVal r : Int) = n := Option.some.inj h
                refine ⟨Or.inr ⟨r, hrne, hall, Or.inr ⟨by rw [hneg], hn.symm⟩⟩, ?_, ?_⟩
                · rw [← hn]; exact hrange.1
                · rw [← hn]; exact hrange.2
              · rw [if_neg hrange] at h
                exact absurd h (by simp)
            · have hplus : c = '+' := hpm.resolve_right hneg
              rw [if_neg hneg] at h
              by_cases hrange :
                  -(2 ^ 63 : Int) ≤ (digitsVal r : Int) ∧ (digitsVal r : Int) ≤ 2 ^ 63 - 1
              · rw [if_pos hrange] at h
                have hn : (digitsVal r : Int) = n := Option.some.inj h
                refine ⟨Or.inr ⟨r, hrne, hall, Or.inl ⟨by rw [hplus], hn.symm⟩⟩, ?_, ?_⟩
                · rw [← hn]; exact hrange.1
                · rw [← hn]; exact hrange.2
              · rw [if_neg hrange] at h
                exact absurd h (by simp)
          · rw [if_neg hall] at h
            exact absurd h (by simp)
      · rw [if_neg hpm] at h
        rw [if_neg (by simp)] at h
        by_cases hall : (c :: r).all isDigit
        · rw [if_pos hall] at h
          have hneg : ¬ (c = '-') := fun hc => hpm (Or.inr hc)
          rw [if_neg hneg] at h
          by_cases hrange :
              -(2 ^ 63 : Int) ≤ (digitsVal (c :: r) : Int) ∧
                (digitsVal (c :: r) : Int) ≤ 2 ^ 63 - 1
          · rw [if_pos hrange] at h
            have hn : (digitsVal (c :: r) : Int) = n := Option.some.inj h
            refine ⟨Or.inl ⟨by simp, hall, hn.symm⟩, ?_, ?_⟩
            · rw [← hn]; exact hrange.1
            · rw [← hn]; exact hrange.2
          · rw [if_neg hrange] at h
            exact absurd h (by simp)
        · rw [if_neg hall] at h
          exact absurd h (by simp)
    · rintro ⟨hd, h1, h2⟩
      rcases hd with ⟨-, hall, hval⟩ | ⟨t, htne, htall, (⟨heq, hval⟩ | ⟨heq, hval⟩)⟩
      · have hcd : isDigit c = true := by
          rw [List.all_cons, Bool.and_eq_true] at hall
          exact hall.1
        have hcplus : ¬ (c = '+') := by
          intro hc
          rw [hc] at hcd
          exact absurd hcd (by decide)
        have hcminus : ¬ (c = '-') := by
          intro hc
          rw [hc] at hcd
          exact absurd hcd (by decide)
        have hpm : ¬ (c = '+' ∨ c = '-') := by
          rintro (hc | hc)
          · exact hcplus hc
          · exact hcminus hc
        have hall2 : (c :: r).all isDigit = true := by
          rw [List.all_cons, Bool.and_eq_true]
          rw [List.all_cons, Bool.and_eq_true] at hall
          exact hall
        have hcond : -(2 ^ 63 : Int) ≤ (digitsVal (c :: r) : Int) ∧
            (digitsVal (c :: r) : Int) ≤ 2 ^ 63 - 1 := by
          rw [← hval]
          exact ⟨h1, h2⟩
        simp only [goAtoi]
        rw [if_neg hpm, if_neg hcminus, if_neg (by simp), if_pos hall2, if_pos hcond]
        exact congrArg some hval.symm
      · obtain ⟨hc, hr⟩ := List.cons.inj heq
        subst hc
        subst hr
        have hcond : -(2 ^ 63 : Int) ≤ (digitsVal r : Int) ∧
            (digitsVal r : Int) ≤ 2 ^ 63 - 1 := by
          rw [← hval]
          exact ⟨h1, h2⟩
        simp only [goAtoi]
        rw [if_pos (Or.inl trivial)]
        rw [if_neg (fun hie => htne ((isEmpty_eq_true_iff _).mp hie))]
        rw [if_pos htall]
        rw [if_neg (show ¬(('+' : Char) = '-') from by decide)]
        rw [if_pos hcond]
        exact congrArg some hval.symm
      · obtain ⟨hc, hr⟩ := List.cons.inj heq
        subst hc
        subst hr
        have hcond : -(2 ^ 63 : Int) ≤ -(digitsVal r : Int) ∧
            -(digitsVal r : Int) ≤ 2 ^ 63 - 1 := by
          rw [← hval]
          exact ⟨h1, h2⟩
        simp only [goAtoi]
        rw [if_pos (Or.inr trivial)]
        rw [if_neg (fun hie => htne ((isEmpty_eq_true_iff _).mp hie))]
        rw [if_pos htall]
        rw [if_pos (show True from trivial)]
        rw [if_pos hcond]
        exact congrArg some hval.symm

end GoStr

namespace stack

theorem hasPre_unexpected (y : String) :
    GoStr.hasPre ("unexpected format: \"" ++ y ++ "\"").data "unexpected format".data = true := by
  have hsplit : ("unexpected format: \"" : String) = "unexpected format" ++ ": \"" := by decide
  rw [hsplit]
  show ("unexpected format".data).isPrefixOf _ = true
  rw [String.data_append, String.data_append, String.data_append, List.append_assoc,
    List.append_assoc]
  exact GoStr.isPrefixOf_append_self _ _

theorem hasPre_badID (x y : String) :
    GoStr.hasPre
      ("bad goroutine ID \"" ++ x ++ "\" in line \"" ++ y ++ "\"").data
      "bad goroutine ID".data = true := by
  have hsplit : ("bad goroutine ID \"" : String) = "bad goroutine ID" ++ " \"" := by decide
  rw [hsplit]
  show ("bad goroutine ID".data).isPrefixOf _ = true
  simp only [String.data_append, List.append_assoc]
  exact GoStr.isPrefixOf_append_self _ _

theorem parseGoStackHeader_eq (line : String) :
    parseGoStackHeader line =
      match headerParts line with
      | [_p0, p1, p2] =>
        match GoStr.goAtoi p1 with
        | none =>
          .error ("bad goroutine ID \"" ++ (⟨p1⟩ : String) ++ "\" in line \"" ++
            (⟨GoStr.trimSuf (GoStr.trimSuf line.data [':']) ['\n']⟩ : String) ++ "\"")
        | some id => .ok (id, ⟨GoStr.trimSuf (GoStr.trimPre p2 ['[']) [']']⟩)
      | _ =>
        .error ("unexpected format: \"" ++
          (⟨GoStr.trimSuf (GoStr.trimSuf line.data [':']) ['\n']⟩ : String) ++ "\"") := rfl

/-- Claim C3 (amended): the header line, after the trailing colon (and
guard newline) is stripped, is split on its first two spaces; fewer than
three tokens yield an error starting with "unexpected format"; with
exactly three tokens, a second token that does not denote a decimal
integer representable in a signed 64-bit `int` (a plain or signed digit
run — an out-of-range numeral counts as unrepresentable) yields an error
starting with "bad goroutine ID"; otherwise parsing succeeds with the
denoted id and with the state equal to the third token stripped of its
surrounding brackets. -/
theorem parseGoStackHeader_spec (line : String) :
    ((headerParts line).length ≠ 3 →
      ∃ m, parseGoStackHeader line = .error m ∧
        GoStr.hasPre m.data "unexpected format".data = true) ∧
    (∀ p0 p1 p2, headerParts line = [p0, p1, p2] →
      ((¬ ∃ n, GoStr.denotesDecimal p1 n ∧ -(2 ^ 63) ≤ n ∧ n ≤ 2 ^ 63 - 1) →
        ∃ m, parseGoStackHeader line = .error m ∧
          GoStr.hasPre m.data "bad goroutine ID".data = true) ∧
      (∀ n, GoStr.denotesDecimal p1 n → -(2 ^ 63) ≤ n → n ≤ 2 ^ 63 - 1 →
        parseGoStackHeader line = .ok (n, ⟨GoStr.trimSuf (GoStr.trimPre p2 ['[']) [']']⟩))) := by
  constructor
  · intro hlen
    rw [parseGoStackHeader_eq]
    rcases hq : headerParts line with _ | ⟨p0, _ | ⟨p1, _ | ⟨p2, rest⟩⟩⟩
    · exact ⟨_, rfl, hasPre_unexpected _⟩
    · exact ⟨_, rfl, hasPre_unexpected _⟩
    · exact ⟨_, rfl, hasPre_unexpected _⟩
    · cases rest with
      | nil =>
        rw [hq] at hlen
        simp at hlen
      | cons q qs => exact ⟨_, rfl, hasPre_unexpected _⟩
  · intro p0 p1 p2 hq
    have hmain : parseGoStackHeader line =
        match GoStr.goAtoi p1 with
        | none =>
          .error ("bad goroutine ID \"" ++ (⟨p1⟩ : String) ++ "\" in line \"" ++
            (⟨GoStr.trimSuf (GoStr.trimSuf line.data [':']) ['\n']⟩ : String) ++ "\"")
        | some id => .ok (id, ⟨GoStr.trimSuf (GoStr.trimPre p2 ['[']) [']']⟩) := by
      rw [parseGoStackHeader_eq, hq]
    constructor
    · intro hno
      have hatoi : GoStr.goAtoi p1 = none := by
        cases ha : GoStr.goAtoi p1 with
        | none => rfl
        | some m =>
          exfalso
          apply hno
          have hm := (GoStr.goAtoi_eq_some_iff p1 m).mp ha
          exact ⟨m, hm.1, hm.2.1, hm.2.2⟩
      rw [hmain, hatoi]
      exact ⟨_, rfl, hasPre_badID _ _⟩
    · intro n hden h1 h2
      have hatoi : GoStr.goAtoi p1 = some n :=
        (GoStr.goAtoi_eq_some_iff p1 n).mpr ⟨hden, h1, h2⟩
      rw [hmain, hatoi]

/-- Witness for `parseGoStackHeader_spec`: the header from the source
comment, `goroutine 643 [runnable]:`, parses to id 643 in state
"runnable". -/
theorem parseGoStackHeader_spec_witness :
    parseGoStackHeader "goroutine 643 [runnable]:" = .ok (643, "runnable") := by
  have h := ((parseGoStackHeader_spec "goroutine 643 [runnable]:").2
    "goroutine".data "643".data "[runnable]".data (by decide)).2 643
    (Or.inl ⟨by decide, by decide, by decide⟩) (by norm_num) (by norm_num)
  exact h.trans (by decide)

/-- Claim C3, counterexample to the claim as stated: the second token of
`goroutine 9223372036854775808 [running]:` is a decimal integer (2^63,
all digits), and the line splits into exactly three tokens, yet the code
rejects it with a "bad goroutine ID" error because `strconv.Atoi` fails
on values outside the signed 64-bit range — so "otherwise parsing
succeeds with id equal to that integer" is false here. -/
theorem parseGoStackHeader_bigid_counterexample :
    GoStr.denotesDecimal "9223372036854775808".data 9223372036854775808 ∧
    headerParts "goroutine 9223372036854775808 [running]:" =
      ["goroutine".data, "9223372036854775808".data, "[running]".data] ∧
    parseGoStackHeader "goroutine 9223372036854775808 [running]:" =
      .error "bad goroutine ID \"9223372036854775808\" in line \"goroutine 9223372036854775808 [running]\"" := by
  refine ⟨Or.inl ⟨by decide, by decide, by decide⟩, by decide, by decide⟩

end stack

namespace stack

theorem parseStackBody_error_rem (id : Int) (state : String) :
    ∀ (ls : List String) (f fs e : String) (rem : List String),
      parseStackBody id state f fs ls = (.error e, rem) → ∃ pre, ls = pre ++ rem := by
  intro ls
  induction ls with
  | nil =>
    intro f fs e rem h
    simp [parseStackBody] at h
  | cons line rest ih =>
    intro f fs e rem h
    simp only [parseStackBody] at h
    by_cases hh : isGoroutineHeader line
    · simp [hh] at h
    · simp only [hh, Bool.false_eq_true, if_false] at h
      by_cases hf : f = ""
      · rw [if_pos hf] at h
        cases hpf : parseFirstFunc line with
        | error e2 =>
          rw [hpf] at h
          simp only [Prod.mk.injEq] at h
          obtain ⟨-, h2⟩ := h
          exact ⟨[line], by simp [h2]⟩
        | ok fn =>
          rw [hpf] at h
          obtain ⟨pre, hp⟩ := ih _ _ _ _ h
          exact ⟨line :: pre, by simp [hp]⟩
      · rw [if_neg hf] at h
        obtain ⟨pre, hp⟩ := ih _ _ _ _ h
        exact ⟨line :: pre, by simp [hp]⟩

theorem parseStackBody_append (id : Int) (state : String) :
    ∀ (ls rest : List String) (f fs : String),
      (∀ l ∈ ls, isGoroutineHeader l = false) →
      (rest = [] ∨ ∃ r rs, rest = r :: rs ∧ isGoroutineHeader r = true) →
      parseStackBody id state f fs (ls ++ rest) =
        match parseStackBody id state f fs ls with
        | (.ok s, _) => (.ok s, rest)
        | (.error e, rem) => (.error e, rem ++ rest) := by
  intro ls
  induction ls with
  | nil =>
    intro rest f fs _ hrest
    rcases hrest with rfl | ⟨r, rs, rfl, hr⟩
    · simp [parseStackBody]
    · simp [parseStackBody, hr]
  | cons line ls' ih =>
    intro rest f fs hnh hrest
    have hline : isGoroutineHeader line = false := hnh line (List.mem_cons_self _ _)
    have hnh' : ∀ l ∈ ls', isGoroutineHeader l = false :=
      fun l hl => hnh l (List.mem_cons_of_mem _ hl)
    simp only [List.cons_append, parseStackBody, hline, Bool.false_eq_true, if_false]
    split_ifs with hf
    · cases hpf : parseFirstFunc line with
      | error e2 => rfl
      | ok fn => exact ih rest fn _ hnh' hrest
    · exact ih rest f _ hnh' hrest

theorem parseLoopF_skip :
    ∀ (xs rest : List String) (stks : List Stack) (errs : List String) (fuel : Nat),
      (∀ l ∈ xs, isGoroutineHeader l = false) →
      xs.length + rest.length ≤ fuel →
      parseLoopF fuel (xs ++ rest) stks errs = parseLoopF rest.length rest stks errs := by
  intro xs
  induction xs with
  | nil =>
    intro rest stks errs fuel _ hfuel
    simp only [List.nil_append]
    exact parseLoopF_fuel_congr fuel rest.length rest stks errs (by simpa using hfuel) le_rfl
  | cons x xs' ih =>
    intro rest stks errs fuel hnh hfuel
    have hx : isGoroutineHeader x = false := hnh x (List.mem_cons_self _ _)
    cases fuel with
    | zero => simp at hfuel
    | succ f =>
      simp only [List.cons_append, parseLoopF, hx, Bool.false_eq_true, if_false]
      refine ih rest stks errs f (fun l hl => hnh l (List.mem_cons_of_mem _ hl)) ?_
      simp only [List.length_cons] at hfuel
      omega

theorem parseLoopF_acc (fuel : Nat) :
    ∀ (lines : List String) (stks : List Stack) (errs : List String),
      parseLoopF fuel lines stks errs =
        (stks ++ (parseLoopF fuel lines [] []).1, errs ++ (parseLoopF fuel lines [] []).2) := by
  induction fuel with
  | zero =>
    intro lines stks errs
    simp [parseLoopF]
  | succ f ih =>
    intro lines stks errs
    cases lines with
    | nil => simp [parseLoopF]
    | cons line rest =>
      by_cases hh : isGoroutineHeader line
      · simp only [parseLoopF, hh, if_true]
        cases hps : parseStack line rest with
        | mk res rem =>
          cases res with
          | ok s =>
            show parseLoopF f rem (stks ++ [s]) errs =
              (stks ++ (parseLoopF f rem ([] ++ [s]) []).1,
                errs ++ (parseLoopF f rem ([] ++ [s]) []).2)
            rw [ih rem (stks ++ [s]) errs, ih rem ([] ++ [s]) []]
            simp [List.append_assoc]
          | error e =>
            show parseLoopF f rem stks (errs ++ [e]) =
              (stks ++ (parseLoopF f rem [] ([] ++ [e])).1,
                errs ++ (parseLoopF f rem [] ([] ++ [e])).2)
            rw [ih rem stks (errs ++ [e]), ih rem [] ([] ++ [e])]
            simp [List.append_assoc]
      · simp only [parseLoopF, hh, Bool.false_eq_true, if_false]
        exact ih rest stks errs

end stack

namespace stack

/-- Claim C6: a single record block (a header followed by its body lines)
whose parse fails — malformed header or a frame line with no function
signature — fails only itself: `Parse` of that block followed by the
rest of the dump returns exactly the records and errors of the rest,
with this record's single error prepended to the error list; a block
that parses adds its record in front of the rest's records.  Joined as
its callers see it, the aggregate error holds every per-record message
alongside the successfully parsed records. -/
theorem parse_error_isolation (h : String) (tl rest : List String)
    (hh : isGoroutineHeader h = true)
    (htl : ∀ l ∈ tl, isGoroutineHeader l = false)
    (hrest : rest = [] ∨ ∃ r rs, rest = r :: rs ∧ isGoroutineHeader r = true) :
    (∀ s rem, parseStack h tl = (.ok s, rem) →
      Parse (h :: (tl ++ rest)) = (s :: (Parse rest).1, (Parse rest).2)) ∧
    (∀ e rem, parseStack h tl = (.error e, rem) →
      Parse (h :: (tl ++ rest)) = ((Parse rest).1, e :: (Parse rest).2) ∧
      ParseJoined (h :: (tl ++ rest)) =
        ((Parse rest).1, some (String.intercalate "\n" (e :: (Parse rest).2)))) := by
  have hstep : Parse (h :: (tl ++ rest)) =
      match parseStack h (tl ++ rest) with
      | (.ok s, rem) => parseLoopF (tl ++ rest).length rem ([] ++ [s]) []
      | (.error e, rem) => parseLoopF (tl ++ rest).length rem [] ([] ++ [e]) := by
    show parseLoopF (h :: (tl ++ rest)).length (h :: (tl ++ rest)) [] [] = _
    simp only [List.length_cons, parseLoopF, hh, if_true]
  cases hhd : parseGoStackHeader h with
  | error e0 =>
    have hps_tl : parseStack h tl = (.error ("parse header: " ++ e0), tl) := by
      simp [parseStack, hhd]
    have hps_full : parseStack h (tl ++ rest) =
        (.error ("parse header: " ++ e0), tl ++ rest) := by
      simp [parseStack, hhd]
    constructor
    · intro s rem hok
      rw [hps_tl] at hok
      simp at hok
    · intro e rem herr
      rw [hps_tl] at herr
      simp only [Prod.mk.injEq] at herr
      obtain ⟨he, -⟩ := herr
      have he2 : "parse header: " ++ e0 = e := Except.error.inj he
      have hP : Parse (h :: (tl ++ rest)) =
          parseLoopF (tl ++ rest).length (tl ++ rest) [] ([] ++ ["parse header: " ++ e0]) := by
        rw [hstep, hps_full]
      have hParse : Parse (h :: (tl ++ rest)) = ((Parse rest).1, e :: (Parse rest).2) := by
        rw [hP, parseLoopF_skip tl rest [] ([] ++ ["parse header: " ++ e0])
          ((tl ++ rest).length) htl (by simp),
          parseLoopF_acc rest.length rest [] ([] ++ ["parse header: " ++ e0])]
        show ([] ++ (Parse rest).1, ([] ++ ["parse header: " ++ e0]) ++ (Parse rest).2) = _
        rw [← he2]
        simp
      refine ⟨hParse, ?_⟩
      rw [ParseJoined, hParse]
      simp [joinErrors]
  | ok v =>
    obtain ⟨id, st⟩ := v
    have hps_tl : parseStack h tl = parseStackBody id st "" "" tl := by
      simp [parseStack, hhd]
    have hps_full : parseStack h (tl ++ rest) = parseStackBody id st "" "" (tl ++ rest) := by
      simp [parseStack, hhd]
    have happ := parseStackBody_append id st tl rest "" "" htl hrest
    cases hbody : parseStackBody id st "" "" tl with
    | mk res rem0 =>
      cases res with
      | ok s0 =>
        have hfull2 : parseStackBody id st "" "" (tl ++ rest) = (.ok s0, rest) := by
          rw [happ, hbody]
        constructor
        · intro s rem hok
          rw [hps_tl, hbody] at hok
          simp only [Prod.mk.injEq] at hok
          obtain ⟨hs, -⟩ := hok
          have hs2 : s0 = s := Except.ok.inj hs
          subst hs2
          have hP : Parse (h :: (tl ++ rest)) =
              parseLoopF (tl ++ rest).length rest ([] ++ [s0]) [] := by
            rw [hstep, hps_full, hfull2]
          rw [hP, parseLoopF_fuel_congr ((tl ++ rest).length) rest.length rest ([] ++ [s0]) []
            (by simp) le_rfl, parseLoopF_acc rest.length rest ([] ++ [s0]) []]
          show (([] ++ [s0]) ++ (Parse rest).1, [] ++ (Parse rest).2) = _
          simp
        · intro e rem herr
          rw [hps_tl, hbody] at herr
          simp at herr
      | error e0 =>
        have hfull2 : parseStackBody id st "" "" (tl ++ rest) = (.error e0, rem0 ++ rest) := by
          rw [happ, hbody]
        obtain ⟨pre, hpre⟩ := parseStackBody_error_rem id st tl "" "" e0 rem0 hbody
        have hrem0 : ∀ l ∈ rem0, isGoroutineHeader l = false := by
          intro l hl
          refine htl l ?_
          rw [hpre]
          exact List.mem_append_right _ hl
        constructor
        · intro s rem hok
          rw [hps_tl, hbody] at hok
          simp at hok
        · intro e rem herr
          rw [hps_tl, hbody] at herr
          simp only [Prod.mk.injEq] at herr
          obtain ⟨he, -⟩ := herr
          have he2 : e0 = e := Except.error.inj he
          subst he2
          have hP : Parse (h :: (tl ++ rest)) =
              parseLoopF (tl ++ rest).length (rem0 ++ rest) [] ([] ++ [e0]) := by
            rw [hstep, hps_full, hfull2]
          have hlenrem : rem0.length ≤ tl.length := by
            rw [hpre]
            simp
          have hParse : Parse (h :: (tl ++ rest)) = ((Parse rest).1, e0 :: (Parse rest).2) := by
            rw [hP, parseLoopF_skip rem0 rest [] ([] ++ [e0]) ((tl ++ rest).length) hrem0
              (by simp; omega),
              parseLoopF_acc rest.length rest [] ([] ++ [e0])]
            show ([] ++ (Parse rest).1, ([] ++ [e0]) ++ (Parse rest).2) = _
            simp
          refine ⟨hParse, ?_⟩
          rw [ParseJoined, hParse]
          simp [joinErrors]

/-- Witness for `parse_error_isolation`: a dump with one malformed record
(its frame line has no `(`) followed by one well-formed record; `Parse`
returns the good record and exactly the bad record's error. -/
theorem parse_error_isolation_witness :
    Parse ["goroutine 5 [running]:", "no-parens-line", "\tfile.go:1",
        "goroutine 6 [running]:", "main.f(0x1)", "\tmain.go:2 +0x5"] =
      ([⟨6, "running", "main.f", "main.f(0x1)\n\tmain.go:2 +0x5\n"⟩],
        ["extract function: no function found: \"no-parens-line\""]) := by
  have hiso := ((parse_error_isolation "goroutine 5 [running]:"
    ["no-parens-line", "\tfile.go:1"]
    ["goroutine 6 [running]:", "main.f(0x1)", "\tmain.go:2 +0x5"] (by decide) (by decide)
    (Or.inr ⟨"goroutine 6 [running]:", ["main.f(0x1)", "\tmain.go:2 +0x5"], rfl, by decide⟩)).2
    "extract function: no function found: \"no-parens-line\"" ["\tfile.go:1"] (by decide)).1
  exact hiso.trans (by decide)

end stack
